import Mathlib

attribute [local semireducible] Rat.add Rat.mul Rat.inv Rat.sub

/-!
Verification development for the `egui-euc` software rendering backend
(`src/lib.rs`).  The Rust source is shallowly embedded: `f32` arithmetic is
modelled over exact rationals (`ℚ`), machine integers over `Nat`/`Int` with
explicit wrapping or saturation where it matters, panicking operations over
`Except`/`Option`, and the two external crates (`egui`/`epaint` colour
conversions, `euc` buffers and rasterization driving) are modelled from the
specification where their code is not part of this repository.
-/

namespace EguiEuc

/-- Linear premultiplied colour with four rational channels, modelling
`egui::Rgba` (`f32` channels modelled exactly over `ℚ`). -/
structure Rgba where
  r : ℚ
  g : ℚ
  b : ℚ
  a : ℚ
  deriving DecidableEq, Repr

/-- Componentwise addition, modelling `impl Add for egui::Rgba`. -/
def Rgba.add (c d : Rgba) : Rgba :=
  ⟨c.r + d.r, c.g + d.g, c.b + d.b, c.a + d.a⟩

/-- Scalar multiplication on all four channels, modelling
`impl Mul<f32> for egui::Rgba` (which scales the alpha channel too). -/
def Rgba.mulScalar (c : Rgba) (s : ℚ) : Rgba :=
  ⟨c.r * s, c.g * s, c.b * s, c.a * s⟩

/-- Overwrite the alpha channel, modelling `color[3] = v` on `egui::Rgba`. -/
def Rgba.setA (c : Rgba) (v : ℚ) : Rgba :=
  ⟨c.r, c.g, c.b, v⟩

/-- The arithmetic core of `EguiMeshEucPipeline::blend` (src/lib.rs lines
87-88): `fragment + screen * (1.0 - fragment.a())` followed by the alpha
overwrite `color[3] = screen.a() + fragment.a() * (1.0 - screen.a())`. -/
def blendCore (screen fragment : Rgba) : Rgba :=
  let color := Rgba.add fragment (Rgba.mulScalar screen (1 - fragment.a))
  Rgba.setA color (screen.a + fragment.a * (1 - screen.a))

/-- Little-endian byte `i` of a 32-bit packed pixel, modelling
`u32::to_le_bytes`. -/
def byteOf (px i : Nat) : Nat := px / 256 ^ i % 256

/-- Modelled from the spec: the unpacking of a destination pixel
(src/lib.rs lines 83-85 via `Color32::from_rgba_premultiplied` and
`Color32 → Rgba`, code of the `egui` dependency, absent from this
repository).  The spec says the bytes are read back "treating both as
premultiplied", each channel a normalized float; the dependency's sRGB
gamma curve is not described by the spec and is modelled as the identity
(linear) curve. -/
def unpackPixel (px : Nat) : Rgba :=
  ⟨(byteOf px 0 : ℚ) / 255, (byteOf px 1 : ℚ) / 255,
   (byteOf px 2 : ℚ) / 255, (byteOf px 3 : ℚ) / 255⟩

/-- Clamp a rational to `[0,1]`, scale by 255 and round half up, modelling
the dependency's saturating `f32 → u8` quantization. -/
def unitToByte (q : ℚ) : Nat := (⌊255 * (max 0 (min 1 q)) + 1 / 2⌋).toNat

/-- Modelled from the spec: the packing of the blend result
(src/lib.rs line 90 via `Rgba::to_srgba_unmultiplied`, code of the `egui`
dependency, absent from this repository).  Per the spec, the output buffer
holds straight (non-premultiplied) alpha, so the premultiplied colour is
unmultiplied by its alpha before quantization (RGB preserved verbatim when
alpha is zero, which is the dependency's documented additive-colour case);
the sRGB gamma curve is modelled as the identity (linear) curve. -/
def packPixel (c : Rgba) : Nat :=
  let rgb : ℚ × ℚ × ℚ :=
    if c.a = 0 then (c.r, c.g, c.b) else (c.r / c.a, c.g / c.a, c.b / c.a)
  unitToByte rgb.1 + 256 * unitToByte rgb.2.1 + 256 ^ 2 * unitToByte rgb.2.2 +
    256 ^ 3 * unitToByte c.a

/-- `EguiMeshEucPipeline::blend` (src/lib.rs lines 82-91): unpack the screen
pixel, apply the compositing arithmetic, pack the result back into a packed
32-bit pixel. -/
def blend (screen : Nat) (fragment : Rgba) : Nat :=
  packPixel (blendCore (unpackPixel screen) fragment)

/-- An axis-aligned rectangle with rational corners, modelling `egui::Rect`
(`min`/`max` are `(x, y)` pairs). -/
structure Rect where
  min : ℚ × ℚ
  max : ℚ × ℚ
  deriving DecidableEq, Repr

/-- Rust's `f32::round` (round half away from zero), modelled exactly on
rationals. -/
def rustRound (q : ℚ) : ℤ :=
  if 0 ≤ q then ⌊q + 1 / 2⌋ else ⌈q - 1 / 2⌉

/-- Rust's saturating `f32 as i32` cast applied to an already-rounded
value. -/
def satI32 (z : ℤ) : ℤ :=
  max (-(2 ^ 31)) (min (2 ^ 31 - 1) z)

/-- Rust's `usize as i32` cast: wrap modulo `2^32` and reinterpret as a
signed 32-bit value. -/
def usizeToI32 (n : Nat) : ℤ :=
  if n % 2 ^ 32 < 2 ^ 31 then (n % 2 ^ 32 : ℤ) else (n % 2 ^ 32 : ℤ) - 2 ^ 32

/-- Rust's `i32::clamp(lo, hi)` on its `lo ≤ hi` domain.  The real `clamp`
panics when `lo > hi`, which `Scissor::from_clip_rect` reaches when a
screen dimension of `2^31` or more wraps negative under `as i32`; this
model is total, so every theorem about `from_clip_rect` (and about the
paint pipeline that calls it per draw item) carries explicit
`screen < 2^31` hypotheses confining it to the domain where the source's
clamp cannot panic and agrees with this definition. -/
def rclamp (v lo hi : ℤ) : ℤ := max lo (min v hi)

/-- Modelled from the spec: `euc::Buffer2d`, the 2D pixel buffer of the
`euc` dependency (absent from this repository) — a size together with a
row-major element list. -/
structure Buffer2d (α : Type) where
  size : Nat × Nat
  items : List α
  deriving DecidableEq, Repr

/-- Modelled from the spec: `euc::Buffer2d::fill(size, v)` allocates a
buffer of `size.1 * size.2` copies of `v`. -/
def Buffer2d.fill (size : Nat × Nat) (v : α) : Buffer2d α :=
  ⟨size, List.replicate (size.1 * size.2) v⟩

/-- Read the texel at `(x, y)` through the row-major layout (`none` when the
coordinate falls outside the stored items). -/
def Buffer2d.read (b : Buffer2d α) (x y : Nat) : Option α :=
  b.items[y * b.size.1 + x]?

/-- Modelled from the spec: `euc::Buffer2d`'s write at `(x, y)` — in bounds
it stores the texel at the row-major index; no out-of-bounds effect is
relied on by any claim. -/
def Buffer2d.write (b : Buffer2d α) (x y : Nat) (v : α) : Buffer2d α :=
  if x < b.size.1 ∧ y < b.size.2 then
    ⟨b.size, b.items.set (y * b.size.1 + x) v⟩
  else b

/-- The buffer's item list has exactly one entry per coordinate of its size
(maintained by `fill` and `write`). -/
def Buffer2d.wf (b : Buffer2d α) : Prop :=
  b.items.length = b.size.1 * b.size.2

/-- `Scissor` (src/lib.rs lines 100-106): a wrapper of a render target;
reads are unaffected but writes are clipped by the rectangle
`[x, x+width) × [y, y+height)`. -/
structure Scissor (T : Type) where
  inner : T
  x : Nat
  y : Nat
  width : Nat
  height : Nat
  deriving DecidableEq, Repr

/-- `Scissor::new` (src/lib.rs lines 109-117). -/
def Scissor.new (inner : T) (x y width height : Nat) : Scissor T :=
  ⟨inner, x, y, width, height⟩

/-- `Scissor::bounds_check` (src/lib.rs lines 119-121). -/
def Scissor.bounds_check (s : Scissor T) (x y : Nat) : Bool :=
  s.x ≤ x && s.y ≤ y && x < s.x + s.width && y < s.y + s.height

/-- `Scissor::from_clip_rect` (src/lib.rs lines 123-154): scale the clip
rectangle's corners by `pixels_per_point`, round to integers, clamp the min
corner to `[0, screen]` and the max corner to `[min, screen]`, and record
the resulting origin and extent. -/
def Scissor.from_clip_rect (inner : T) (screen : Nat × Nat)
    (pixels_per_point : ℚ) (clip_rect : Rect) : Scissor T :=
  let clip_min_x := satI32 (rustRound (pixels_per_point * clip_rect.min.1))
  let clip_min_y := satI32 (rustRound (pixels_per_point * clip_rect.min.2))
  let clip_max_x := satI32 (rustRound (pixels_per_point * clip_rect.max.1))
  let clip_max_y := satI32 (rustRound (pixels_per_point * clip_rect.max.2))
  let clip_min_x := rclamp clip_min_x 0 (usizeToI32 screen.1)
  let clip_min_y := rclamp clip_min_y 0 (usizeToI32 screen.2)
  let clip_max_x := rclamp clip_max_x clip_min_x (usizeToI32 screen.1)
  let clip_max_y := rclamp clip_max_y clip_min_y (usizeToI32 screen.2)
  Scissor.new inner clip_min_x.toNat clip_min_y.toNat
    (max (clip_max_x - clip_min_x) 0).toNat
    (max (clip_max_y - clip_min_y) 0).toNat

/-- `Target::read_exclusive_unchecked for Scissor` (src/lib.rs lines
174-176): reads pass through to the wrapped buffer. -/
def Scissor.read (s : Scissor (Buffer2d α)) (x y : Nat) : Option α :=
  s.inner.read x y

/-- `Target::write_exclusive_unchecked for Scissor` (src/lib.rs lines
178-184): the write reaches the wrapped buffer exactly when
`bounds_check` passes. -/
def Scissor.write (s : Scissor (Buffer2d α)) (x y : Nat) (v : α) :
    Scissor (Buffer2d α) :=
  if s.bounds_check x y then { s with inner := s.inner.write x y v } else s

/-- `egui::TextureFilter` (the `magnification` field is what the source
matches on). -/
inductive TextureFilter where
  | Nearest
  | Linear
  deriving DecidableEq, Repr

/-- `egui::TextureWrapMode`. -/
inductive TextureWrapMode where
  | ClampToEdge
  | Repeat
  | MirroredRepeat
  deriving DecidableEq, Repr

/-- `egui::TextureOptions`, restricted to the two fields the source reads
(src/lib.rs line 271). -/
structure TextureOptions where
  magnification : TextureFilter
  wrap_mode : TextureWrapMode
  deriving DecidableEq, Repr

/-- The six sampler strategies the render match (src/lib.rs lines 271-320)
can construct; the `euc` sampler combinators themselves are external, so
each is modelled by its tag. -/
inductive SamplerKind where
  | linearTiled
  | linearClamped
  | linearMirrored
  | nearestTiled
  | nearestClamped
  | nearestMirrored
  deriving DecidableEq, Repr

/-- The sampler dispatch of `Painter::render` (src/lib.rs lines 271-320):
one arm per `(magnification, wrap_mode)` pair, in source order. -/
def samplerOfOptions (o : TextureOptions) : SamplerKind :=
  match o.magnification, o.wrap_mode with
  | .Linear, .Repeat => .linearTiled
  | .Linear, .ClampToEdge => .linearClamped
  | .Linear, .MirroredRepeat => .linearMirrored
  | .Nearest, .Repeat => .nearestTiled
  | .Nearest, .ClampToEdge => .nearestClamped
  | .Nearest, .MirroredRepeat => .nearestMirrored

/-- `egui::Color32`: four sRGB-encoded bytes. -/
structure Color32 where
  r : Nat
  g : Nat
  b : Nat
  a : Nat
  deriving DecidableEq, Repr

instance : Inhabited Color32 := ⟨⟨0, 0, 0, 0⟩⟩

/-- Modelled from the spec: the `Color32 → Rgba` conversion of the `egui`
dependency (absent from this repository), used by the source at
`vertex.into()` and `sample.into()`.  The spec describes texture samples as
normalized floats; the dependency's sRGB gamma curve is modelled as the
identity (linear) curve, each byte being normalized to `[0, 1]`. -/
def c32ToRgba (c : Color32) : Rgba :=
  ⟨(c.r : ℚ) / 255, (c.g : ℚ) / 255, (c.b : ℚ) / 255, (c.a : ℚ) / 255⟩

/-- `epaint::Vertex`: UI-space position, texture coordinates and sRGB
colour. -/
structure Vertex where
  pos : ℚ × ℚ
  uv : ℚ × ℚ
  color : Color32
  deriving DecidableEq, Repr

/-- `EguiVertexData` (src/lib.rs lines 12-16). -/
structure EguiVertexData where
  uv : ℚ × ℚ
  color : Rgba
  deriving DecidableEq, Repr

/-- `From<epaint::Vertex> for EguiVertexData` (src/lib.rs lines 38-45). -/
def EguiVertexData.ofVertex (v : Vertex) : EguiVertexData :=
  ⟨v.uv, c32ToRgba v.color⟩

/-- `egui_coord_to_ndc` (src/lib.rs lines 54-57): `transf = 2*pos/size`,
result `[transf.x - 1, 1 - transf.y]`. -/
def egui_coord_to_ndc (pos screen_size : ℚ × ℚ) : ℚ × ℚ :=
  let transf := (2 * pos.1 / screen_size.1, 2 * pos.2 / screen_size.2)
  (transf.1 - 1, 1 - transf.2)

/-- `EguiMeshEucPipeline` (src/lib.rs lines 48-52); the generic `euc`
sampler is carried as its selected tag. -/
structure EguiMeshEucPipeline where
  sampler : SamplerKind
  vertices : List Vertex
  screen_size_points : ℚ × ℚ
  deriving DecidableEq, Repr

/-- The vertex stage (src/lib.rs lines 70-75): fetch the indexed vertex
(`none` models the panic of an out-of-range slice index), convert its
position to NDC and emit `[x, y, 0, 1]` plus the interpolable data. -/
def EguiMeshEucPipeline.vertex (p : EguiMeshEucPipeline) (idx : Nat) :
    Option ((ℚ × ℚ × ℚ × ℚ) × EguiVertexData) :=
  match p.vertices.get? idx with
  | none => none
  | some v =>
    let ndc := egui_coord_to_ndc v.pos p.screen_size_points
    some ((ndc.1, ndc.2, 0, 1), EguiVertexData.ofVertex v)

/-- `egui::ColorImage`: a size and a row-major list of `Color32` pixels
(the only `epaint::ImageData` variant the source destructures). -/
structure ColorImage where
  size : Nat × Nat
  pixels : List Color32
  deriving DecidableEq, Repr

/-- `patch[(x, y)]`: row-major pixel access of `egui::ColorImage`. -/
def ColorImage.pixel (img : ColorImage) (x y : Nat) : Color32 :=
  (img.pixels.get? (y * img.size.1 + x)).getD default

/-- `epaint::ImageDelta`: the patch image, the new sampling options and the
optional sub-region origin (`none` for a whole-image delta). -/
structure ImageDelta where
  image : ColorImage
  options : TextureOptions
  pos : Option (Nat × Nat)
  deriving DecidableEq, Repr

/-- `ImageDelta::is_whole`: a delta with no sub-region origin replaces the
whole texture. -/
def ImageDelta.is_whole (d : ImageDelta) : Bool := d.pos.isNone

/-- `epaint::ImageDelta::full(image, options)`. -/
def ImageDelta.full (image : ColorImage) (options : TextureOptions) :
    ImageDelta :=
  ⟨image, options, none⟩

/-- `SoftwareTexture` (src/lib.rs lines 187-190). -/
structure SoftwareTexture where
  pixels : Buffer2d Rgba
  options : TextureOptions
  deriving DecidableEq, Repr

/-- The doubly-nested write loop of `SoftwareTexture::update` (src/lib.rs
lines 353-359): for every pixel of the delta's image, overwrite the
destination pixel at the offset position with the converted sample. -/
def writePatch (img : ColorImage) (off : Nat × Nat) (buf : Buffer2d Rgba) :
    Buffer2d Rgba :=
  (List.range img.size.2).foldl
    (fun acc y =>
      (List.range img.size.1).foldl
        (fun acc2 x =>
          acc2.write (x + off.1) (y + off.2) (c32ToRgba (img.pixel x y)))
        acc)
    buf

/-- The non-replacing path of `SoftwareTexture::update` (src/lib.rs lines
349-359): overwrite the stored options with the delta's options, then write
the delta's pixels at `delta.pos.unwrap_or([0, 0])`. -/
def SoftwareTexture.updateCore (t : SoftwareTexture) (delta : ImageDelta) :
    SoftwareTexture :=
  ⟨writePatch delta.image (delta.pos.getD (0, 0)) t.pixels, delta.options⟩

/-- A placeholder red, modelling `Rgba::RED` used as the fill sentinel. -/
def rgbaRED : Rgba := ⟨1, 0, 0, 1⟩

/-- `SoftwareTexture::new` (src/lib.rs lines 329-339): allocate a sentinel
buffer of the image's size, then apply the image as a whole delta (the
inner `update` call always takes the non-replacing path because the sizes
match by construction). -/
def SoftwareTexture.new (image : ColorImage) (options : TextureOptions) :
    SoftwareTexture :=
  let pixels := Buffer2d.fill image.size rgbaRED
  let delta := ImageDelta.full image options
  SoftwareTexture.updateCore ⟨pixels, options⟩ delta

/-- `SoftwareTexture::update` (src/lib.rs lines 341-360): a whole delta of a
different size replaces the texture wholesale; otherwise the delta is
patched in place. -/
def SoftwareTexture.update (t : SoftwareTexture) (delta : ImageDelta) :
    SoftwareTexture :=
  if delta.is_whole ∧ delta.image.size ≠ t.pixels.size then
    SoftwareTexture.new delta.image delta.options
  else
    t.updateCore delta

/-- `egui::TextureId`. -/
inductive TextureId where
  | managed (n : Nat)
  | user (n : Nat)
  deriving DecidableEq, Repr

/-- The texture store of `Painter` (`hashbrown::HashMap<TextureId,
SoftwareTexture>`), modelled as an association list with map semantics. -/
def Store := List (TextureId × SoftwareTexture)

instance : DecidableEq Store := by unfold Store; infer_instance

/-- `HashMap::get`. -/
def lookupStore (store : Store) (id : TextureId) : Option SoftwareTexture :=
  match store with
  | [] => none
  | (k, v) :: rest => if k = id then some v else lookupStore rest id

/-- `HashMap::remove`: the key is absent afterwards. -/
def removeStore : Store → TextureId → Store
  | [], _ => []
  | (k, v) :: rest, id =>
    if k = id then removeStore rest id else (k, v) :: removeStore rest id

/-- `HashMap::insert`: the key maps to exactly the new value afterwards. -/
def insertStore (store : Store) (id : TextureId) (t : SoftwareTexture) :
    Store :=
  (id, t) :: removeStore store id

/-- One step of `Painter::allocate_textures`, as a total function: an
existing entry is updated in place, an unseen whole delta inserts a new
texture, and the panicking case (partial delta on an absent texture) is a
no-op here; `allocate_textures` reports it. -/
def applyDelta (store : Store) (id : TextureId) (delta : ImageDelta) :
    Store :=
  match lookupStore store id with
  | some t => insertStore store id (t.update delta)
  | none =>
    if delta.is_whole then
      insertStore store id (SoftwareTexture.new delta.image delta.options)
    else store

/-- The store evolution of `Painter::allocate_textures` over a delta list,
ignoring the panic. -/
def applyDeltas (store : Store) : List (TextureId × ImageDelta) → Store
  | [] => store
  | (id, d) :: rest => applyDeltas (applyDelta store id d) rest

/-- `Painter::allocate_textures` (src/lib.rs lines 220-235): process the set
list in order; a partial delta naming an absent texture is the source's
`panic!("Attempted partial update on absent texture")`. -/
def allocate_textures (store : Store) :
    List (TextureId × ImageDelta) → Except String Store
  | [] => .ok store
  | (id, d) :: rest =>
    match lookupStore store id with
    | some t => allocate_textures (insertStore store id (t.update d)) rest
    | none =>
      if d.is_whole then
        allocate_textures
          (insertStore store id (SoftwareTexture.new d.image d.options)) rest
      else
        .error "Attempted partial update on absent texture"

/-- `Painter::free_textures` (src/lib.rs lines 237-241). -/
def free_textures (store : Store) (free : List TextureId) : Store :=
  free.foldl removeStore store

/-- `epaint::Mesh`, restricted to the fields the source reads. -/
structure Mesh where
  texture_id : TextureId
  vertices : List Vertex
  indices : List Nat
  deriving DecidableEq, Repr

/-- `epaint::Primitive`: only the mesh variant is handled by the source. -/
inductive Primitive where
  | mesh (m : Mesh)
  | callback
  deriving DecidableEq, Repr

/-- `egui::ClippedPrimitive`. -/
structure ClippedPrimitive where
  clip_rect : Rect
  primitive : Primitive
  deriving DecidableEq, Repr

/-- Modelled from the spec: the `euc` crate's `Pipeline::render` driving
(absent from this repository).  Per the spec's vertex stage, the stored
vertex is fetched for every index of the index list — an out-of-range index
is the panic of the slice access in `EguiMeshEucPipeline::vertex`
(src/lib.rs line 71).  The scan conversion itself touches no claim, so the
target buffers are threaded through unchanged. -/
def rasterize (pipe : EguiMeshEucPipeline) (indices : List Nat)
    (target : Scissor (Buffer2d Nat)) (depth : Buffer2d ℚ) :
    Except String (Buffer2d Nat × Buffer2d ℚ) :=
  if indices.all fun i => (pipe.vertex i).isSome then .ok (target.inner, depth)
  else .error "index out of bounds: the len is too small"

/-- The body of one mesh iteration of the draw-item loop of
`Painter::render` (src/lib.rs lines 253-320): build the scissor from the
item's clip rectangle, look the mesh's texture up
(`expect("Mesh referenced absent texture")`), select the sampler from its
options, and run the pipeline over the mesh. -/
def renderMesh (store : Store) (pixels_per_point : ℚ) (screen : Nat × Nat)
    (color : Buffer2d Nat) (depth : Buffer2d ℚ) (clip_rect : Rect)
    (m : Mesh) : Except String (Buffer2d Nat × Buffer2d ℚ) :=
  let scissor := Scissor.from_clip_rect color screen pixels_per_point clip_rect
  match lookupStore store m.texture_id with
  | none => .error "Mesh referenced absent texture"
  | some texture =>
    let screen_size_points :=
      ((screen.1 : ℚ) / pixels_per_point, (screen.2 : ℚ) / pixels_per_point)
    rasterize
      ⟨samplerOfOptions texture.options, m.vertices, screen_size_points⟩
      m.indices scissor depth

/-- One iteration of the draw-item loop of `Painter::render` (src/lib.rs
lines 252-321): only mesh primitives are handled (`if let`). -/
def renderItem (store : Store) (pixels_per_point : ℚ) (screen : Nat × Nat)
    (color : Buffer2d Nat) (depth : Buffer2d ℚ) (item : ClippedPrimitive) :
    Except String (Buffer2d Nat × Buffer2d ℚ) :=
  match item.primitive with
  | .callback => .ok (color, depth)
  | .mesh m =>
    renderMesh store pixels_per_point screen color depth item.clip_rect m

/-- The draw-item loop of `Painter::render`, threading the colour and depth
buffers. -/
def renderLoop (store : Store) (pixels_per_point : ℚ) (screen : Nat × Nat) :
    Buffer2d Nat → Buffer2d ℚ → List ClippedPrimitive →
    Except String (Buffer2d Nat)
  | color, _, [] => .ok color
  | color, depth, item :: rest => do
    let (color2, depth2) ← renderItem store pixels_per_point screen color
      depth item
    renderLoop store pixels_per_point screen color2 depth2 rest

/-- `Painter::render` (src/lib.rs lines 243-325): fresh colour (`0`) and
depth (`1.0`) buffers, then the draw-item loop. -/
def render (store : Store) (clipped_primitives : List ClippedPrimitive)
    (pixels_per_point : ℚ) (screen : Nat × Nat) :
    Except String (Buffer2d Nat) :=
  renderLoop store pixels_per_point screen (Buffer2d.fill screen 0)
    (Buffer2d.fill screen 1) clipped_primitives

/-- `egui::TexturesDelta`. -/
structure TexturesDelta where
  set : List (TextureId × ImageDelta)
  free : List TextureId
  deriving DecidableEq, Repr

/-- `Painter::paint_and_update_textures` (src/lib.rs lines 204-218):
allocate, render, free — in that order — and return the finished image
together with the final store (the source mutates `self`). -/
def paint_and_update_textures (store : Store)
    (textures_delta : TexturesDelta)
    (clipped_primitives : List ClippedPrimitive) (pixels_per_point : ℚ)
    (screen_size : Nat × Nat) :
    Except String (Store × Buffer2d Nat) := do
  let store1 ← allocate_textures store textures_delta.set
  let image ← render store1 clipped_primitives pixels_per_point screen_size
  .ok (free_textures store1 textures_delta.free, image)

/-- Whether an `Except` computation finished without aborting. -/
def isOk : Except ε α → Bool
  | .ok _ => true
  | .error _ => false

/-- A concrete 1×1 image used by counterexample and witness scenarios. -/
def c3Image : ColorImage := ⟨(1, 1), [⟨0, 0, 0, 255⟩]⟩

/-- A whole-image delta for `c3Image`. -/
def c3Delta : ImageDelta :=
  ImageDelta.full c3Image ⟨.Nearest, .ClampToEdge⟩

/-- A delta list creating texture `managed 0` and freeing nothing. -/
def c3TD : TexturesDelta := ⟨[(.managed 0, c3Delta)], []⟩

/-- A single draw item whose mesh references the present texture
`managed 0` but whose index list points past its empty vertex list. -/
def c3Prims : List ClippedPrimitive :=
  [⟨⟨(0, 0), (4, 4)⟩, .mesh ⟨.managed 0, [], [0]⟩⟩]

/-- A concrete 1×1 image for the eviction-ordering scenario. -/
def c7Image : ColorImage := ⟨(1, 1), [⟨1, 2, 3, 4⟩]⟩

/-- Sampling options for the eviction-ordering scenario. -/
def c7Opts : TextureOptions := ⟨.Linear, .Repeat⟩

/-- A delta list that creates texture `managed 0` and schedules it for
eviction in the same frame. -/
def c7TD : TexturesDelta :=
  ⟨[(.managed 0, ImageDelta.full c7Image c7Opts)], [.managed 0]⟩

/-- A concrete 2×2 stored texture for the patch scenario. -/
def c4Tex : SoftwareTexture :=
  ⟨Buffer2d.fill (2, 2) rgbaRED, ⟨.Nearest, .Repeat⟩⟩

/-- A 1×1 partial patch of `c4Tex` at offset `(1, 0)`. -/
def c4Delta : ImageDelta :=
  ⟨⟨(1, 1), [⟨9, 8, 7, 6⟩]⟩, ⟨.Linear, .ClampToEdge⟩, some (1, 0)⟩

theorem usizeToI32_eq_of_lt (n : Nat) (h : n < 2 ^ 31) :
    usizeToI32 n = (n : ℤ) := by
  unfold usizeToI32
  rw [if_pos (by omega)]
  omega

theorem rustRound_nonpos {q : ℚ} (h : q ≤ 0) : rustRound q ≤ 0 := by
  unfold rustRound
  split
  · have h1 : ¬(1 ≤ ⌊q + 1 / 2⌋) := by
      rw [Int.le_floor]
      intro hc
      rw [Int.cast_one] at hc
      linarith
    omega
  · exact Int.ceil_le.mpr (by exact_mod_cast (by linarith : q - 1 / 2 ≤ (0 : ℚ)))

theorem le_rustRound {W : ℤ} {q : ℚ} (h : (W : ℚ) ≤ q) : W ≤ rustRound q := by
  unfold rustRound
  split
  · exact Int.le_floor.mpr (by linarith)
  · have h1 : W - 1 < ⌈q - 1 / 2⌉ := Int.lt_ceil.mpr (by push_cast; linarith)
    omega

theorem satI32_nonpos {z : ℤ} (h : z ≤ 0) : satI32 z ≤ 0 :=
  max_le (by norm_num) (le_trans (min_le_right _ _) h)

theorem le_satI32 {W z : ℤ} (h1 : W ≤ z) (h2 : W ≤ 2 ^ 31 - 1) :
    W ≤ satI32 z :=
  le_max_of_le_right (le_min h2 h1)

/-- C5: the scissor rectangle is obtained by scaling the clip corners by the
pixel ratio, rounding to the nearest integer, clamping the min corner to
`[0, screen]` and the max corner to `[min, screen]`; a clip rectangle fully
outside the screen on some axis yields extent 0 on that axis, and the
extents are never negative. -/
theorem from_clip_rect_spec {T : Type} (inner : T) (screen : Nat × Nat)
    (ppp : ℚ) (clip : Rect) (hW : screen.1 < 2 ^ 31)
    (hH : screen.2 < 2 ^ 31) :
    let minx := rclamp (satI32 (rustRound (ppp * clip.min.1))) 0 (screen.1 : ℤ)
    let miny := rclamp (satI32 (rustRound (ppp * clip.min.2))) 0 (screen.2 : ℤ)
    let maxx := rclamp (satI32 (rustRound (ppp * clip.max.1))) minx (screen.1 : ℤ)
    let maxy := rclamp (satI32 (rustRound (ppp * clip.max.2))) miny (screen.2 : ℤ)
    let s := Scissor.from_clip_rect inner screen ppp clip
    (s.x = minx.toNat ∧ s.y = miny.toNat ∧
      s.width = (maxx - minx).toNat ∧ s.height = (maxy - miny).toNat) ∧
    (0 ≤ maxx - minx ∧ 0 ≤ maxy - miny) ∧
    ((ppp * clip.max.1 ≤ 0 ∨ (screen.1 : ℚ) ≤ ppp * clip.min.1 →
        s.width = 0) ∧
      (ppp * clip.max.2 ≤ 0 ∨ (screen.2 : ℚ) ≤ ppp * clip.min.2 →
        s.height = 0)) := by
  intro minx miny maxx maxy s
  have hW' : usizeToI32 screen.1 = (screen.1 : ℤ) := usizeToI32_eq_of_lt _ hW
  have hH' : usizeToI32 screen.2 = (screen.2 : ℤ) := usizeToI32_eq_of_lt _ hH
  have hW0 : (0 : ℤ) ≤ (screen.1 : ℤ) := Int.natCast_nonneg _
  have hH0 : (0 : ℤ) ≤ (screen.2 : ℤ) := Int.natCast_nonneg _
  have hminx0 : 0 ≤ minx := le_max_left _ _
  have hminy0 : 0 ≤ miny := le_max_left _ _
  have hmmx : minx ≤ maxx := le_max_left _ _
  have hmmy : miny ≤ maxy := le_max_left _ _
  have hminxW : minx ≤ (screen.1 : ℤ) := max_le hW0 (min_le_right _ _)
  have hminyW : miny ≤ (screen.2 : ℤ) := max_le hH0 (min_le_right _ _)
  have hx : s.x = minx.toNat := by
    show (rclamp (satI32 (rustRound (ppp * clip.min.1))) 0
        (usizeToI32 screen.1)).toNat = minx.toNat
    rw [hW']
  have hy : s.y = miny.toNat := by
    show (rclamp (satI32 (rustRound (ppp * clip.min.2))) 0
        (usizeToI32 screen.2)).toNat = miny.toNat
    rw [hH']
  have hw : s.width = (maxx - minx).toNat := by
    show (max (rclamp (satI32 (rustRound (ppp * clip.max.1)))
        (rclamp (satI32 (rustRound (ppp * clip.min.1))) 0
          (usizeToI32 screen.1)) (usizeToI32 screen.1) -
        rclamp (satI32 (rustRound (ppp * clip.min.1))) 0
          (usizeToI32 screen.1)) 0).toNat = (maxx - minx).toNat
    rw [hW', max_eq_left (sub_nonneg.mpr hmmx)]
  have hh : s.height = (maxy - miny).toNat := by
    show (max (rclamp (satI32 (rustRound (ppp * clip.max.2)))
        (rclamp (satI32 (rustRound (ppp * clip.min.2))) 0
          (usizeToI32 screen.2)) (usizeToI32 screen.2) -
        rclamp (satI32 (rustRound (ppp * clip.min.2))) 0
          (usizeToI32 screen.2)) 0).toNat = (maxy - miny).toNat
    rw [hH', max_eq_left (sub_nonneg.mpr hmmy)]
  refine ⟨⟨hx, hy, hw, hh⟩,
    ⟨sub_nonneg.mpr hmmx, sub_nonneg.mpr hmmy⟩, fun h => ?_, fun h => ?_⟩
  · rw [hw]
    rcases h with h0 | h1
    · have hsat : satI32 (rustRound (ppp * clip.max.1)) ≤ 0 :=
        satI32_nonpos (rustRound_nonpos h0)
      have : maxx = minx := by
        unfold maxx rclamp
        exact max_eq_left (le_trans (min_le_left _ _) (le_trans hsat hminx0))
      omega
    · have hsat : (screen.1 : ℤ) ≤ satI32 (rustRound (ppp * clip.min.1)) :=
        le_satI32 (le_rustRound h1) (by omega)
      have hminW : minx = (screen.1 : ℤ) := by
        unfold minx rclamp
        rw [min_eq_right hsat]
        exact max_eq_right hW0
      have : maxx = (screen.1 : ℤ) :=
        le_antisymm (max_le hminxW (min_le_right _ _)) (hminW ▸ hmmx)
      omega
  · rw [hh]
    rcases h with h0 | h1
    · have hsat : satI32 (rustRound (ppp * clip.max.2)) ≤ 0 :=
        satI32_nonpos (rustRound_nonpos h0)
      have : maxy = miny := by
        unfold maxy rclamp
        exact max_eq_left (le_trans (min_le_left _ _) (le_trans hsat hminy0))
      omega
    · have hsat : (screen.2 : ℤ) ≤ satI32 (rustRound (ppp * clip.min.2)) :=
        le_satI32 (le_rustRound h1) (by omega)
      have hminW : miny = (screen.2 : ℤ) := by
        unfold miny rclamp
        rw [min_eq_right hsat]
        exact max_eq_right hH0
      have : maxy = (screen.2 : ℤ) :=
        le_antisymm (max_le hminyW (min_le_right _ _)) (hminW ▸ hmmy)
      omega

/-- C5 witness: a clip rectangle entirely to the right of a 4×4 screen
yields a zero-extent scissor rectangle. -/
theorem from_clip_rect_spec_witness :
    (Scissor.from_clip_rect () (4, 4) 1 ⟨(5, 5), (6, 6)⟩).width = 0 :=
  ((from_clip_rect_spec () (4, 4) 1 ⟨(5, 5), (6, 6)⟩ (by norm_num)
    (by norm_num)).2.2).1 (Or.inr (by norm_num))

/-- C9: for every target size, pixel ratio and clip rectangle, the derived
scissor rectangle is contained in the target, so a coordinate passing the
scissor bounds check is a valid coordinate of the underlying screen
buffer. -/
theorem scissor_contained_in_target {T : Type} (inner : T)
    (screen : Nat × Nat) (ppp : ℚ) (clip : Rect) (hW : screen.1 < 2 ^ 31)
    (hH : screen.2 < 2 ^ 31) :
    let s := Scissor.from_clip_rect inner screen ppp clip
    (s.x + s.width ≤ screen.1 ∧ s.y + s.height ≤ screen.2) ∧
    ∀ px py : Nat, s.bounds_check px py = true →
      px < screen.1 ∧ py < screen.2 := by
  intro s
  have hW' : usizeToI32 screen.1 = (screen.1 : ℤ) := usizeToI32_eq_of_lt _ hW
  have hH' : usizeToI32 screen.2 = (screen.2 : ℤ) := usizeToI32_eq_of_lt _ hH
  have hW0 : (0 : ℤ) ≤ (screen.1 : ℤ) := Int.natCast_nonneg _
  have hH0 : (0 : ℤ) ≤ (screen.2 : ℤ) := Int.natCast_nonneg _
  have hcx : s.x + s.width ≤ screen.1 := by
    show (rclamp (satI32 (rustRound (ppp * clip.min.1))) 0
        (usizeToI32 screen.1)).toNat +
      (max (rclamp (satI32 (rustRound (ppp * clip.max.1)))
        (rclamp (satI32 (rustRound (ppp * clip.min.1))) 0
          (usizeToI32 screen.1)) (usizeToI32 screen.1) -
        rclamp (satI32 (rustRound (ppp * clip.min.1))) 0
          (usizeToI32 screen.1)) 0).toNat ≤ screen.1
    rw [hW']
    have hminx0 : 0 ≤ rclamp (satI32 (rustRound (ppp * clip.min.1))) 0
        (screen.1 : ℤ) := le_max_left _ _
    have hminxW : rclamp (satI32 (rustRound (ppp * clip.min.1))) 0
        (screen.1 : ℤ) ≤ (screen.1 : ℤ) := max_le hW0 (min_le_right _ _)
    have hmmx : rclamp (satI32 (rustRound (ppp * clip.min.1))) 0
          (screen.1 : ℤ) ≤
        rclamp (satI32 (rustRound (ppp * clip.max.1)))
          (rclamp (satI32 (rustRound (ppp * clip.min.1))) 0 (screen.1 : ℤ))
          (screen.1 : ℤ) := le_max_left _ _
    have hmaxxW : rclamp (satI32 (rustRound (ppp * clip.max.1)))
          (rclamp (satI32 (rustRound (ppp * clip.min.1))) 0 (screen.1 : ℤ))
          (screen.1 : ℤ) ≤ (screen.1 : ℤ) :=
      max_le hminxW (min_le_right _ _)
    omega
  have hcy : s.y + s.height ≤ screen.2 := by
    show (rclamp (satI32 (rustRound (ppp * clip.min.2))) 0
        (usizeToI32 screen.2)).toNat +
      (max (rclamp (satI32 (rustRound (ppp * clip.max.2)))
        (rclamp (satI32 (rustRound (ppp * clip.min.2))) 0
          (usizeToI32 screen.2)) (usizeToI32 screen.2) -
        rclamp (satI32 (rustRound (ppp * clip.min.2))) 0
          (usizeToI32 screen.2)) 0).toNat ≤ screen.2
    rw [hH']
    have hminy0 : 0 ≤ rclamp (satI32 (rustRound (ppp * clip.min.2))) 0
        (screen.2 : ℤ) := le_max_left _ _
    have hminyW : rclamp (satI32 (rustRound (ppp * clip.min.2))) 0
        (screen.2 : ℤ) ≤ (screen.2 : ℤ) := max_le hH0 (min_le_right _ _)
    have hmmy : rclamp (satI32 (rustRound (ppp * clip.min.2))) 0
          (screen.2 : ℤ) ≤
        rclamp (satI32 (rustRound (ppp * clip.max.2)))
          (rclamp (satI32 (rustRound (ppp * clip.min.2))) 0 (screen.2 : ℤ))
          (screen.2 : ℤ) := le_max_left _ _
    have hmaxyW : rclamp (satI32 (rustRound (ppp * clip.max.2)))
          (rclamp (satI32 (rustRound (ppp * clip.min.2))) 0 (screen.2 : ℤ))
          (screen.2 : ℤ) ≤ (screen.2 : ℤ) :=
      max_le hminyW (min_le_right _ _)
    omega
  refine ⟨⟨hcx, hcy⟩, fun px py h => ?_⟩
  simp only [Scissor.bounds_check, Bool.and_eq_true, decide_eq_true_eq] at h
  omega

/-- C9 witness: containment at a concrete screen, ratio and (inverted) clip
rectangle. -/
theorem scissor_contained_in_target_witness :
    (Scissor.from_clip_rect () (4, 4) 2 ⟨(3, 3), (1, 1)⟩).x +
        (Scissor.from_clip_rect () (4, 4) 2 ⟨(3, 3), (1, 1)⟩).width ≤ 4 :=
  ((scissor_contained_in_target () (4, 4) 2 ⟨(3, 3), (1, 1)⟩ (by norm_num)
    (by norm_num)).1).1

theorem lookup_remove (s : Store) (j i : TextureId) :
    lookupStore (removeStore s j) i =
      if j = i then none else lookupStore s i := by
  induction s with
  | nil =>
    simp only [removeStore, lookupStore]
    split <;> rfl
  | cons p rest ih =>
    obtain ⟨k, v⟩ := p
    by_cases hkj : k = j
    · subst hkj
      by_cases hki : k = i
      · subst hki
        simp [removeStore, lookupStore, ih]
      · simp [removeStore, lookupStore, hki, ih]
    · by_cases hki : k = i
      · subst hki
        have hjk : ¬j = k := fun h => hkj h.symm
        simp [removeStore, lookupStore, hkj, hjk]
      · simp [removeStore, lookupStore, hkj, hki, ih]

theorem lookup_free_of_none (l : List TextureId) (s : Store) (id : TextureId)
    (h : lookupStore s id = none) :
    lookupStore (free_textures s l) id = none := by
  induction l generalizing s with
  | nil => exact h
  | cons j rest ih =>
    show lookupStore (free_textures (removeStore s j) rest) id = none
    refine ih _ ?_
    rw [lookup_remove]
    split
    · rfl
    · exact h

theorem lookup_free (l : List TextureId) (s : Store) (id : TextureId)
    (h : id ∈ l) :
    lookupStore (free_textures s l) id = none := by
  induction l generalizing s with
  | nil => cases h
  | cons j rest ih =>
    show lookupStore (free_textures (removeStore s j) rest) id = none
    rcases List.mem_cons.mp h with rfl | hmem
    · exact lookup_free_of_none rest _ _ (by rw [lookup_remove, if_pos rfl])
    · exact ih _ hmem

theorem allocate_ok_eq (l : List (TextureId × ImageDelta)) :
    ∀ store s : Store, allocate_textures store l = .ok s →
      s = applyDeltas store l := by
  induction l with
  | nil =>
    intro store s h
    cases h
    rfl
  | cons p rest ih =>
    obtain ⟨id, d⟩ := p
    intro store s h
    rw [allocate_textures] at h
    cases hl : lookupStore store id with
    | some t =>
      rw [hl] at h
      have h2 := ih _ _ h
      show s = applyDeltas (applyDelta store id d) rest
      rw [applyDelta, hl]
      exact h2
    | none =>
      rw [hl] at h
      by_cases hw : d.is_whole = true
      · rw [if_pos hw] at h
        have h2 := ih _ _ h
        show s = applyDeltas (applyDelta store id d) rest
        rw [applyDelta, hl, if_pos hw]
        exact h2
      · rw [if_neg hw] at h
        cases h

/-- C7: free operations are applied strictly after rendering: when a paint
call succeeds, the image was rendered against the post-allocation,
pre-free store (where a texture scheduled for freeing is still found), and
that texture is absent from the store the paint call leaves behind. -/
theorem frees_after_render (store : Store) (td : TexturesDelta)
    (prims : List ClippedPrimitive) (ppp : ℚ) (screen : Nat × Nat)
    (store2 : Store) (img : Buffer2d Nat) (id : TextureId)
    (t : SoftwareTexture)
    (hpaint : paint_and_update_textures store td prims ppp screen =
      .ok (store2, img))
    (hfree : id ∈ td.free)
    (hlook : lookupStore (applyDeltas store td.set) id = some t) :
    render (applyDeltas store td.set) prims ppp screen = .ok img ∧
    lookupStore (applyDeltas store td.set) id = some t ∧
    lookupStore store2 id = none := by
  unfold paint_and_update_textures at hpaint
  cases halloc : allocate_textures store td.set with
  | error e =>
    rw [halloc] at hpaint
    simp only [bind, Except.bind] at hpaint
    exact Except.noConfusion hpaint
  | ok s1 =>
    rw [halloc] at hpaint
    simp only [bind, Except.bind] at hpaint
    obtain rfl : s1 = applyDeltas store td.set := allocate_ok_eq _ _ _ halloc
    cases hrender : render (applyDeltas store td.set) prims ppp screen with
    | error e =>
      rw [hrender] at hpaint
      simp at hpaint
    | ok img2 =>
      rw [hrender] at hpaint
      simp only [Except.ok.injEq, Prod.mk.injEq] at hpaint
      obtain ⟨h2, h3⟩ := hpaint
      exact ⟨by rw [h3], hlook, by rw [← h2]; exact lookup_free _ _ _ hfree⟩

/-- C7 witness: creating and freeing `managed 0` in one frame renders
against a store still holding it, and leaves a store without it. -/
theorem frees_after_render_witness :
    render (applyDeltas [] c7TD.set) [] 1 (1, 1) =
      .ok (Buffer2d.fill (1, 1) 0) ∧
    lookupStore (applyDeltas [] c7TD.set) (.managed 0) =
      some (SoftwareTexture.new c7Image c7Opts) ∧
    lookupStore (free_textures (applyDeltas [] c7TD.set) c7TD.free)
      (.managed 0) = none :=
  frees_after_render [] c7TD [] 1 (1, 1)
    (free_textures (applyDeltas [] c7TD.set) c7TD.free)
    (Buffer2d.fill (1, 1) 0) (.managed 0)
    (SoftwareTexture.new c7Image c7Opts) rfl (by decide) (by decide)

theorem allocate_ok_iff (l : List (TextureId × ImageDelta)) :
    ∀ store : Store,
      isOk (allocate_textures store l) = true ↔
      ∀ (i : Nat) (p : TextureId × ImageDelta), l[i]? = some p →
        p.2.is_whole = true ∨
        (lookupStore (applyDeltas store (l.take i)) p.1).isSome = true := by
  induction l with
  | nil =>
    intro store
    constructor
    · intro _ i p hp
      simp at hp
    · intro _
      rfl
  | cons q rest ih =>
    obtain ⟨id, d⟩ := q
    intro store
    cases hl : lookupStore store id with
    | some t =>
      have hred : allocate_textures store ((id, d) :: rest) =
          allocate_textures (insertStore store id (t.update d)) rest := by
        rw [allocate_textures, hl]
      have hstep : applyDelta store id d =
          insertStore store id (t.update d) := by
        rw [applyDelta, hl]
      rw [hred, ih]
      constructor
      · intro hall i p hp
        cases i with
        | zero =>
          obtain rfl : (id, d) = p := by simpa using hp
          exact Or.inr (by simp [applyDeltas, hl])
        | succ i =>
          have h2 := hall i p (by simpa using hp)
          simpa [List.take_succ_cons, applyDeltas, hstep] using h2
      · intro hall i p hp
        have h2 := hall (i + 1) p (by simpa using hp)
        simpa [List.take_succ_cons, applyDeltas, hstep] using h2
    | none =>
      by_cases hw : d.is_whole = true
      · have hred : allocate_textures store ((id, d) :: rest) =
            allocate_textures
              (insertStore store id
                (SoftwareTexture.new d.image d.options)) rest := by
          rw [allocate_textures, hl, if_pos hw]
        have hstep : applyDelta store id d =
            insertStore store id (SoftwareTexture.new d.image d.options) := by
          rw [applyDelta, hl, if_pos hw]
        rw [hred, ih]
        constructor
        · intro hall i p hp
          cases i with
          | zero =>
            obtain rfl : (id, d) = p := by simpa using hp
            exact Or.inl hw
          | succ i =>
            have h2 := hall i p (by simpa using hp)
            simpa [List.take_succ_cons, applyDeltas, hstep] using h2
        · intro hall i p hp
          have h2 := hall (i + 1) p (by simpa using hp)
          simpa [List.take_succ_cons, applyDeltas, hstep] using h2
      · have hred : allocate_textures store ((id, d) :: rest) =
            .error "Attempted partial update on absent texture" := by
          rw [allocate_textures, hl, if_neg hw]
        rw [hred]
        constructor
        · intro hok
          exact absurd hok (by simp [isOk])
        · intro hall
          rcases hall 0 (id, d) (by simp) with h0 | h0
          · exact absurd h0 hw
          · rw [show ((id, d) :: rest).take 0 = [] from rfl] at h0
            rw [show applyDeltas store [] = store from rfl, hl] at h0
            simp at h0

theorem vertex_isSome (p : EguiMeshEucPipeline) (idx : Nat) :
    (p.vertex idx).isSome = true ↔ idx < p.vertices.length := by
  unfold EguiMeshEucPipeline.vertex
  cases hv : p.vertices.get? idx with
  | none =>
    have hlen := List.get?_eq_none.mp hv
    simp only [Option.isSome_none, Bool.false_eq_true, false_iff]
    omega
  | some v =>
    obtain ⟨hlt, _⟩ := List.get?_eq_some.mp hv
    simp [hlt]

theorem renderItem_eq_callback (store : Store) (ppp : ℚ)
    (screen : Nat × Nat) (color : Buffer2d Nat) (depth : Buffer2d ℚ)
    (item : ClippedPrimitive) (h : item.primitive = .callback) :
    renderItem store ppp screen color depth item = .ok (color, depth) := by
  unfold renderItem
  rw [h]

theorem renderItem_eq_mesh (store : Store) (ppp : ℚ) (screen : Nat × Nat)
    (color : Buffer2d Nat) (depth : Buffer2d ℚ) (item : ClippedPrimitive)
    (m : Mesh) (h : item.primitive = .mesh m) :
    renderItem store ppp screen color depth item =
      renderMesh store ppp screen color depth item.clip_rect m := by
  unfold renderItem
  rw [h]

theorem renderMesh_absent (store : Store) (ppp : ℚ) (screen : Nat × Nat)
    (color : Buffer2d Nat) (depth : Buffer2d ℚ) (clip_rect : Rect) (m : Mesh)
    (hl : lookupStore store m.texture_id = none) :
    renderMesh store ppp screen color depth clip_rect m =
      .error "Mesh referenced absent texture" := by
  unfold renderMesh
  rw [hl]

theorem renderMesh_present (store : Store) (ppp : ℚ) (screen : Nat × Nat)
    (color : Buffer2d Nat) (depth : Buffer2d ℚ) (clip_rect : Rect) (m : Mesh)
    (tex : SoftwareTexture) (hl : lookupStore store m.texture_id = some tex) :
    renderMesh store ppp screen color depth clip_rect m =
      rasterize
        ⟨samplerOfOptions tex.options, m.vertices,
          ((screen.1 : ℚ) / ppp, (screen.2 : ℚ) / ppp)⟩
        m.indices (Scissor.from_clip_rect color screen ppp clip_rect)
        depth := by
  unfold renderMesh
  rw [hl]

theorem renderItem_ok_iff (store : Store) (ppp : ℚ) (screen : Nat × Nat)
    (color : Buffer2d Nat) (depth : Buffer2d ℚ) (item : ClippedPrimitive) :
    isOk (renderItem store ppp screen color depth item) = true ↔
    ∀ m, item.primitive = .mesh m →
      (lookupStore store m.texture_id).isSome = true ∧
      ∀ i ∈ m.indices, i < m.vertices.length := by
  cases hitem : item.primitive with
  | callback =>
    rw [renderItem_eq_callback store ppp screen color depth item hitem]
    simp [isOk, hitem]
  | mesh m =>
    rw [renderItem_eq_mesh store ppp screen color depth item m hitem]
    cases hlook : lookupStore store m.texture_id with
    | none =>
      rw [renderMesh_absent store ppp screen color depth item.clip_rect m
        hlook]
      simp [isOk, hitem, hlook]
    | some tex =>
      rw [renderMesh_present store ppp screen color depth item.clip_rect m
        tex hlook]
      unfold rasterize
      split
      · rename_i hall
        rw [List.all_eq_true] at hall
        simp only [isOk, true_iff, hitem, Primitive.mesh.injEq, forall_eq']
        refine ⟨by simp [hlook], fun i hi => ?_⟩
        have h2 := hall i hi
        rw [vertex_isSome] at h2
        exact h2
      · rename_i hall
        rw [List.all_eq_true] at hall
        simp only [isOk, Bool.false_eq_true, false_iff, hitem,
          Primitive.mesh.injEq, forall_eq', not_and, not_forall]
        intro _
        by_contra hc
        push_neg at hc
        exact hall fun i hi => (vertex_isSome _ i).mpr (hc i hi)

theorem renderItem_of_ok (store : Store) (ppp : ℚ) (screen : Nat × Nat)
    (color : Buffer2d Nat) (depth : Buffer2d ℚ) (item : ClippedPrimitive)
    (h : isOk (renderItem store ppp screen color depth item) = true) :
    renderItem store ppp screen color depth item = .ok (color, depth) := by
  cases hitem : item.primitive with
  | callback => exact renderItem_eq_callback store ppp screen color depth item hitem
  | mesh m =>
    rw [renderItem_eq_mesh store ppp screen color depth item m hitem] at h ⊢
    cases hlook : lookupStore store m.texture_id with
    | none =>
      rw [renderMesh_absent store ppp screen color depth item.clip_rect m
        hlook] at h
      exact absurd h (by simp [isOk])
    | some tex =>
      rw [renderMesh_present store ppp screen color depth item.clip_rect m
        tex hlook] at h ⊢
      unfold rasterize at h ⊢
      split at h
      · rename_i hall
        rw [if_pos hall]
        rfl
      · exact absurd h (by simp [isOk])

theorem renderLoop_ok_iff (store : Store) (ppp : ℚ) (screen : Nat × Nat)
    (prims : List ClippedPrimitive) :
    ∀ (color : Buffer2d Nat) (depth : Buffer2d ℚ),
      isOk (renderLoop store ppp screen color depth prims) = true ↔
      ∀ item ∈ prims, ∀ m, item.primitive = .mesh m →
        (lookupStore store m.texture_id).isSome = true ∧
        ∀ i ∈ m.indices, i < m.vertices.length := by
  induction prims with
  | nil =>
    intro color depth
    simp [renderLoop, isOk]
  | cons item rest ih =>
    intro color depth
    rw [renderLoop]
    cases hok : isOk (renderItem store ppp screen color depth item) with
    | true =>
      rw [renderItem_of_ok store ppp screen color depth item hok]
      simp only [bind, Except.bind]
      rw [ih color depth]
      rw [List.forall_mem_cons]
      have hhead := (renderItem_ok_iff store ppp screen color depth item).mp hok
      exact ⟨fun h => ⟨hhead, h⟩, fun h => h.2⟩
    | false =>
      obtain ⟨e, herr⟩ : ∃ e,
          renderItem store ppp screen color depth item = .error e := by
        cases hre : renderItem store ppp screen color depth item with
        | error e => exact ⟨e, rfl⟩
        | ok pair => rw [hre] at hok; exact absurd hok (by simp [isOk])
      rw [herr]
      simp only [bind, Except.bind]
      constructor
      · intro hc
        exact absurd hc (by simp [isOk])
      · intro hall
        have hhead : isOk (renderItem store ppp screen color depth item) =
            true := by
          rw [renderItem_ok_iff]
          exact (List.forall_mem_cons.mp hall).1
        rw [hok] at hhead
        cases hhead

theorem Buffer2d.size_write (b : Buffer2d α) (x y : Nat) (v : α) :
    (b.write x y v).size = b.size := by
  unfold Buffer2d.write
  split <;> rfl

theorem Buffer2d.wf_write (b : Buffer2d α) (x y : Nat) (v : α) (h : b.wf) :
    (b.write x y v).wf := by
  unfold Buffer2d.wf at h ⊢
  unfold Buffer2d.write
  split
  · simpa using h
  · exact h

theorem Buffer2d.read_write_inb (b : Buffer2d α) (x y px py : Nat) (v : α)
    (hwf : b.wf) (hx : x < b.size.1) (hy : y < b.size.2)
    (hpx : px < b.size.1) :
    (b.write x y v).read px py =
      if x = px ∧ y = py then some v else b.read px py := by
  unfold Buffer2d.write Buffer2d.read
  rw [if_pos ⟨hx, hy⟩]
  show (b.items.set (y * b.size.1 + x) v)[py * b.size.1 + px]? = _
  rw [List.getElem?_set]
  have hidx : y * b.size.1 + x < b.items.length := by
    rw [hwf]
    calc y * b.size.1 + x < y * b.size.1 + b.size.1 := by omega
      _ = (y + 1) * b.size.1 := by ring
      _ ≤ b.size.2 * b.size.1 := Nat.mul_le_mul_right _ (by omega)
      _ = b.size.1 * b.size.2 := Nat.mul_comm _ _
  by_cases heq : x = px ∧ y = py
  · obtain ⟨rfl, rfl⟩ := heq
    rw [if_pos rfl, if_pos hidx, if_pos ⟨rfl, rfl⟩]
  · have hne : ¬(y * b.size.1 + x = py * b.size.1 + px) := by
      intro hcontra
      have ex : x = px := by
        have e1 : (y * b.size.1 + x) % b.size.1 =
            (py * b.size.1 + px) % b.size.1 := by rw [hcontra]
        rw [Nat.add_comm (y * b.size.1) x, Nat.add_mul_mod_self_right,
          Nat.add_comm (py * b.size.1) px, Nat.add_mul_mod_self_right,
          Nat.mod_eq_of_lt hx, Nat.mod_eq_of_lt hpx] at e1
        exact e1
      subst ex
      have hw0 : 0 < b.size.1 := by omega
      have ey : y * b.size.1 = py * b.size.1 := by omega
      exact heq ⟨rfl, Nat.eq_of_mul_eq_mul_right hw0 ey⟩
    rw [if_neg hne, if_neg heq]

theorem foldl_preserves_buffer {β : Type} (step : Buffer2d α → β → Buffer2d α)
    (hsz : ∀ b x, (step b x).size = b.size)
    (hwfp : ∀ b x, b.wf → (step b x).wf) :
    ∀ (l : List β) (b : Buffer2d α),
      ((l.foldl step b).size = b.size) ∧ (b.wf → (l.foldl step b).wf) := by
  intro l
  induction l with
  | nil => intro b; exact ⟨rfl, id⟩
  | cons a l ih =>
    intro b
    rw [List.foldl_cons]
    obtain ⟨h1, h2⟩ := ih (step b a)
    exact ⟨h1.trans (hsz b a), fun hw => h2 (hwfp b a hw)⟩

theorem foldl_write_row_read (f : Nat → α) (ox yy : Nat) (b : Buffer2d α)
    (hwf : b.wf) (hyy : yy < b.size.2) (px py : Nat) (hpx : px < b.size.1) :
    ∀ n : Nat, ox + n ≤ b.size.1 →
      ((List.range n).foldl
        (fun acc x => acc.write (x + ox) yy (f x)) b).read px py =
      if py = yy ∧ ox ≤ px ∧ px < ox + n then some (f (px - ox))
      else b.read px py := by
  intro n
  induction n with
  | zero =>
    intro _
    rw [List.range_zero, List.foldl_nil, if_neg (by omega)]
  | succ n ih =>
    intro hn
    rw [List.range_succ, List.foldl_append, List.foldl_cons, List.foldl_nil]
    have hpres := foldl_preserves_buffer
      (fun acc x => acc.write (x + ox) yy (f x))
      (fun b2 x => Buffer2d.size_write b2 (x + ox) yy (f x))
      (fun b2 x => Buffer2d.wf_write b2 (x + ox) yy (f x)) (List.range n) b
    rw [Buffer2d.read_write_inb _ _ _ _ _ _ (hpres.2 hwf)
      (by rw [hpres.1]; omega) (by rw [hpres.1]; exact hyy)
      (by rw [hpres.1]; exact hpx)]
    rw [ih (by omega)]
    split_ifs with h1 h2 h3 h4 h5
    · have hd : px - ox = n := by omega
      rw [hd]
    · exact absurd (by omega) h2
    · rfl
    · exact absurd (by omega) h4
    · exact absurd (by omega) h1
    · rfl

theorem writePatch_read (img : ColorImage) (ox oy : Nat) (b : Buffer2d Rgba)
    (hwf : b.wf) (hx : ox + img.size.1 ≤ b.size.1)
    (hy : oy + img.size.2 ≤ b.size.2) (px py : Nat)
    (hpx : px < b.size.1) :
    (writePatch img (ox, oy) b).read px py =
      if ox ≤ px ∧ px < ox + img.size.1 ∧ oy ≤ py ∧ py < oy + img.size.2
      then some (c32ToRgba (img.pixel (px - ox) (py - oy)))
      else b.read px py := by
  suffices h : ∀ m : Nat, m ≤ img.size.2 →
      ((List.range m).foldl
        (fun acc y =>
          (List.range img.size.1).foldl
            (fun acc2 x =>
              acc2.write (x + ox) (y + oy) (c32ToRgba (img.pixel x y)))
            acc)
        b).read px py =
      if ox ≤ px ∧ px < ox + img.size.1 ∧ oy ≤ py ∧ py < oy + m
      then some (c32ToRgba (img.pixel (px - ox) (py - oy)))
      else b.read px py by
    exact h img.size.2 le_rfl
  have hrow : ∀ (bb : Buffer2d Rgba) (y : Nat),
      ((List.range img.size.1).foldl
        (fun acc2 x =>
          acc2.write (x + ox) (y + oy) (c32ToRgba (img.pixel x y)))
        bb).size = bb.size ∧
      (bb.wf →
        ((List.range img.size.1).foldl
          (fun acc2 x =>
            acc2.write (x + ox) (y + oy) (c32ToRgba (img.pixel x y)))
          bb).wf) := by
    intro bb y
    exact foldl_preserves_buffer _
      (fun b2 x => Buffer2d.size_write b2 (x + ox) (y + oy) _)
      (fun b2 x => Buffer2d.wf_write b2 (x + ox) (y + oy) _)
      (List.range img.size.1) bb
  intro m
  induction m with
  | zero =>
    intro _
    rw [List.range_zero, List.foldl_nil, if_neg (by omega)]
  | succ m ih =>
    intro hm
    rw [List.range_succ, List.foldl_append, List.foldl_cons, List.foldl_nil]
    have houter := foldl_preserves_buffer
      (fun acc y =>
        (List.range img.size.1).foldl
          (fun acc2 x =>
            acc2.write (x + ox) (y + oy) (c32ToRgba (img.pixel x y)))
          acc)
      (fun b2 y => (hrow b2 y).1)
      (fun b2 y => (hrow b2 y).2) (List.range m) b
    rw [foldl_write_row_read (fun x => c32ToRgba (img.pixel x m)) ox (m + oy)
      _ (houter.2 hwf) (by rw [houter.1]; omega) px py
      (by rw [houter.1]; exact hpx) img.size.1 (by rw [houter.1]; omega)]
    rw [ih (by omega)]
    split_ifs with h1 h2 h3 h4 h5
    · have hd : py - oy = m := by omega
      rw [hd]
    · exact absurd (by omega) h2
    · rfl
    · exact absurd (by omega) h4
    · exact absurd (by omega) h1
    · rfl

/-- C4: applying a partial patch whose sub-region lies within the stored
texture's bounds overwrites exactly the patched sub-region with the patch's
(converted) source pixels and leaves every other pixel of the texture
unchanged. -/
theorem update_patch_pointwise (t : SoftwareTexture) (d : ImageDelta)
    (ox oy : Nat) (hpos : d.pos = some (ox, oy)) (hwf : t.pixels.wf)
    (hx : ox + d.image.size.1 ≤ t.pixels.size.1)
    (hy : oy + d.image.size.2 ≤ t.pixels.size.2)
    (px py : Nat) (hpx : px < t.pixels.size.1) :
    (t.update d).pixels.read px py =
      if ox ≤ px ∧ px < ox + d.image.size.1 ∧
          oy ≤ py ∧ py < oy + d.image.size.2
      then some (c32ToRgba (d.image.pixel (px - ox) (py - oy)))
      else t.pixels.read px py := by
  have hwhole : d.is_whole = false := by
    rw [ImageDelta.is_whole, hpos]
    rfl
  have hupd : t.update d = t.updateCore d := by
    unfold SoftwareTexture.update
    rw [if_neg]
    intro hc
    rw [hwhole] at hc
    exact Bool.false_ne_true hc.1
  rw [hupd]
  show (SoftwareTexture.updateCore t d).pixels.read px py = _
  unfold SoftwareTexture.updateCore
  rw [hpos]
  exact writePatch_read d.image ox oy t.pixels hwf hx hy px py hpx

/-- C4 witness: a concrete 1×1 patch at offset `(1, 0)` of a 2×2 texture
leaves the pixel at `(0, 0)` unchanged and overwrites the pixel at
`(1, 0)`. -/
theorem update_patch_pointwise_witness :
    (c4Tex.update c4Delta).pixels.read 0 0 = c4Tex.pixels.read 0 0 ∧
    (c4Tex.update c4Delta).pixels.read 1 0 =
      some (c32ToRgba (c4Delta.image.pixel 0 0)) := by
  constructor
  · have h := update_patch_pointwise c4Tex c4Delta 1 0 rfl rfl
      (by decide) (by decide) 0 0 (by decide)
    rw [h, if_neg (by decide)]
  · have h := update_patch_pointwise c4Tex c4Delta 1 0 rfl rfl
      (by decide) (by decide) 1 0 (by decide)
    rw [h, if_pos (by decide)]

/-- C3 counterexample: a paint call with only whole-image deltas and a mesh
whose texture is present in the store at render time still aborts, because
the mesh's index list points past its (empty) vertex list — an abort
condition beyond the two the claim enumerates. -/
theorem paint_aborts_beyond_enumerated_conditions :
    isOk (paint_and_update_textures [] c3TD c3Prims 1 (4, 4)) = false ∧
    (c3TD.set.all fun p => p.2.is_whole) = true ∧
    (c3Prims.all fun item =>
      match item.primitive with
      | .mesh m => (lookupStore (applyDeltas [] c3TD.set) m.texture_id).isSome
      | .callback => true) = true := by
  refine ⟨?_, by decide, by decide⟩
  decide

/-- C3 (amended): for screen sizes with both dimensions below `2^31` — the
domain on which `from_clip_rect`'s `usize as i32` casts are
value-preserving and its `i32::clamp` calls cannot panic — a paint call
aborts exactly when a partial patch targets an identifier absent from the
store at the moment the patch is applied, a mesh references an identifier
absent from the store at render time, or a mesh's index list contains an
index outside its vertex list; no other input condition in that domain
aborts.  (A screen dimension of `2^31` or more additionally aborts inside
the clamp of `from_clip_rect` as soon as any mesh item is rendered.) -/
theorem paint_ok_iff (store : Store) (td : TexturesDelta)
    (prims : List ClippedPrimitive) (ppp : ℚ) (screen : Nat × Nat)
    (_hW : screen.1 < 2 ^ 31) (_hH : screen.2 < 2 ^ 31) :
    isOk (paint_and_update_textures store td prims ppp screen) = true ↔
    ((∀ (i : Nat) (p : TextureId × ImageDelta), td.set[i]? = some p →
        p.2.is_whole = true ∨
        (lookupStore (applyDeltas store (td.set.take i)) p.1).isSome = true) ∧
      ∀ item ∈ prims, ∀ m, item.primitive = .mesh m →
        (lookupStore (applyDeltas store td.set) m.texture_id).isSome = true ∧
        ∀ i ∈ m.indices, i < m.vertices.length) := by
  unfold paint_and_update_textures
  have hA := allocate_ok_iff td.set store
  cases halloc : allocate_textures store td.set with
  | error e =>
    rw [halloc] at hA
    simp only [bind, Except.bind]
    simp only [isOk, Bool.false_eq_true, false_iff] at hA ⊢
    intro hc
    exact hA hc.1
  | ok s1 =>
    obtain rfl : s1 = applyDeltas store td.set := allocate_ok_eq _ _ _ halloc
    rw [halloc] at hA
    simp only [isOk, true_iff] at hA
    simp only [bind, Except.bind]
    have hB := renderLoop_ok_iff (applyDeltas store td.set) ppp screen prims
      (Buffer2d.fill screen 0) (Buffer2d.fill screen 1)
    cases hr : renderLoop (applyDeltas store td.set) ppp screen
        (Buffer2d.fill screen 0) (Buffer2d.fill screen 1) prims with
    | error e =>
      rw [hr] at hB
      simp only [isOk, Bool.false_eq_true, false_iff] at hB
      have hrender : render (applyDeltas store td.set) prims ppp screen =
          .error e := hr
      rw [hrender]
      simp only [isOk, Bool.false_eq_true, false_iff]
      intro hc
      exact hB hc.2
    | ok img =>
      rw [hr] at hB
      simp only [isOk, true_iff] at hB
      have hrender : render (applyDeltas store td.set) prims ppp screen =
          .ok img := hr
      rw [hrender]
      simp only [isOk, true_iff]
      exact ⟨hA, hB⟩

/-- C3 witness: the amended characterization applied to an empty frame on a
1×1 screen. -/
theorem paint_ok_iff_witness :
    isOk (paint_and_update_textures [] ⟨[], []⟩ [] 1 (1, 1)) = true :=
  (paint_ok_iff [] ⟨[], []⟩ [] 1 (1, 1) (by norm_num) (by norm_num)).mpr
    ⟨fun i p hp => by simp at hp, fun item h => by simp at h⟩

/-- C1: for every destination pixel and fragment colour, the blend unpacks
the destination, produces `out.rgb = src.rgb + dst.rgb * (1 - src.a)` and
`out.a = dst.a + src.a * (1 - dst.a)`, and packs the result back into the
output buffer's packed 32-bit pixel layout. -/
theorem blend_matches_over_operator (screen : Nat) (fragment : Rgba) :
    blend screen fragment =
      packPixel
        ⟨fragment.r + (unpackPixel screen).r * (1 - fragment.a),
         fragment.g + (unpackPixel screen).g * (1 - fragment.a),
         fragment.b + (unpackPixel screen).b * (1 - fragment.a),
         (unpackPixel screen).a +
           fragment.a * (1 - (unpackPixel screen).a)⟩ := rfl

/-- C2 counterexample: blending the fully transparent fragment over the
packed destination pixel with little-endian bytes `(100, 0, 0, 128)` does
not return the destination unchanged — the destination is unpacked as
premultiplied but repacked with straight (unmultiplied) alpha, giving bytes
`(199, 0, 0, 128)`. -/
theorem blend_transparent_not_packed_identity :
    blend 2147483748 ⟨0, 0, 0, 0⟩ ≠ 2147483748 := by decide

/-- C2 (amended): blending a fully opaque fragment returns exactly the
packed fragment colour independent of the destination, and blending the
fully transparent fragment preserves the destination's unpacked
premultiplied colour value (the packed roundtrip may still change the bytes
because packing unmultiplies the colour). -/
theorem blend_opaque_replaces_transparent_preserves :
    (∀ (d : Nat) (f : Rgba), f.a = 1 → blend d f = packPixel f) ∧
    (∀ d : Nat, blendCore (unpackPixel d) ⟨0, 0, 0, 0⟩ = unpackPixel d) := by
  constructor
  · intro d f hf
    unfold blend
    congr 1
    obtain ⟨r, g, b, a⟩ := f
    simp only [Rgba.a] at hf
    subst hf
    simp [blendCore, Rgba.add, Rgba.mulScalar, Rgba.setA]
  · intro d
    obtain ⟨r, g, b, a⟩ := unpackPixel d
    simp [blendCore, Rgba.add, Rgba.mulScalar, Rgba.setA]

/-- C2 witness: the opaque half of the amended statement at concrete
inputs. -/
theorem blend_opaque_replaces_witness :
    blend 5 ⟨1, 1, 1, 1⟩ = packPixel ⟨1, 1, 1, 1⟩ :=
  blend_opaque_replaces_transparent_preserves.1 5 ⟨1, 1, 1, 1⟩ rfl

/-- C6: a write through the scissor reaches the underlying target exactly
when the coordinate lies in `[x, x+width) × [y, y+height)`, and reads pass
through to the underlying target unconditionally. -/
theorem scissor_read_write_spec (s : Scissor (Buffer2d α)) (x y : Nat)
    (v : α) :
    ((s.bounds_check x y = true →
        s.write x y v = { s with inner := s.inner.write x y v }) ∧
      (s.bounds_check x y = false → s.write x y v = s)) ∧
    (s.bounds_check x y = true ↔
      (s.x ≤ x ∧ x < s.x + s.width) ∧ (s.y ≤ y ∧ y < s.y + s.height)) ∧
    (∀ a b : Nat, s.read a b = s.inner.read a b) := by
  refine ⟨⟨fun h => ?_, fun h => ?_⟩, ?_, fun a b => rfl⟩
  · simp [Scissor.write, h]
  · simp [Scissor.write, h]
  · simp only [Scissor.bounds_check, Bool.and_eq_true, decide_eq_true_eq]
    tauto

/-- C6 witness: writing inside the rectangle of a concrete scissor view
stores into the wrapped buffer. -/
theorem scissor_read_write_spec_witness :
    (Scissor.new (Buffer2d.fill (2, 2) (0 : Nat)) 0 0 1 1).write 0 0 7 =
      { Scissor.new (Buffer2d.fill (2, 2) (0 : Nat)) 0 0 1 1 with
          inner := (Buffer2d.fill (2, 2) (0 : Nat)).write 0 0 7 } :=
  (scissor_read_write_spec
    (Scissor.new (Buffer2d.fill (2, 2) (0 : Nat)) 0 0 1 1) 0 0 7).1.1
    (by decide)

/-- C8: the vertex stage fetches the stored vertex at index `i` and emits
clip-space position `[2*pos.x/size.x - 1, 1 - 2*pos.y/size.y, 0, 1]`
together with the vertex's uv and (converted) colour as interpolable
data. -/
theorem vertex_stage_spec (p : EguiMeshEucPipeline) (idx : Nat) (v : Vertex)
    (h : p.vertices.get? idx = some v) :
    p.vertex idx =
      some ((2 * v.pos.1 / p.screen_size_points.1 - 1,
             1 - 2 * v.pos.2 / p.screen_size_points.2, 0, 1),
            ⟨v.uv, c32ToRgba v.color⟩) := by
  unfold EguiMeshEucPipeline.vertex
  rw [h]
  rfl

/-- C8 witness: the vertex stage evaluated on a concrete one-vertex
pipeline. -/
theorem vertex_stage_spec_witness :
    EguiMeshEucPipeline.vertex
        ⟨.nearestTiled, [⟨(1, 1), (0, 0), ⟨0, 0, 0, 255⟩⟩], (2, 2)⟩ 0 =
      some ((2 * 1 / 2 - 1, 1 - 2 * 1 / 2, 0, 1),
            ⟨(0, 0), c32ToRgba ⟨0, 0, 0, 255⟩⟩) :=
  vertex_stage_spec
    ⟨.nearestTiled, [⟨(1, 1), (0, 0), ⟨0, 0, 0, 255⟩⟩], (2, 2)⟩ 0
    ⟨(1, 1), (0, 0), ⟨0, 0, 0, 255⟩⟩ rfl

/-- C10: every delta applied to an existing texture overwrites the stored
sampling options with the delta's options, and the sampler the render
dispatch selects for that texture afterwards is the one derived from the
delta's options. -/
theorem update_overwrites_options_sampler :
    (∀ (t : SoftwareTexture) (d : ImageDelta),
      (t.update d).options = d.options) ∧
    (∀ (store : Store) (id : TextureId) (tex : SoftwareTexture)
      (d : ImageDelta), lookupStore store id = some tex →
      (lookupStore (applyDelta store id d) id).map
          (fun t2 => samplerOfOptions t2.options) =
        some (samplerOfOptions d.options)) := by
  have hopt : ∀ (t : SoftwareTexture) (d : ImageDelta),
      (t.update d).options = d.options := by
    intro t d
    unfold SoftwareTexture.update
    split <;> rfl
  refine ⟨hopt, fun store id tex d h => ?_⟩
  simp [applyDelta, h, insertStore, lookupStore, hopt]

/-- C10 witness: a partial patch on a concrete stored texture switches the
selected sampler to the one of the patch's options. -/
theorem update_overwrites_options_sampler_witness :
    (lookupStore (applyDelta [(.managed 0, c4Tex)] (.managed 0) c4Delta)
        (.managed 0)).map (fun t2 => samplerOfOptions t2.options) =
      some (samplerOfOptions c4Delta.options) :=
  update_overwrites_options_sampler.2 [(.managed 0, c4Tex)] (.managed 0)
    c4Tex c4Delta (by decide)

end EguiEuc
